import Mathlib

/-!
Verification of the natural-language specification of
`src/ascent/runtimes/expressions/ascent_blueprint_architect.cpp` against a
shallow embedding of that file.  Machine doubles are modelled as rationals
(the claims under scrutiny are exact arithmetic identities), C++ `int`
arithmetic as `Int` with truncating division (`Int.tdiv`/`Int.tmod`, the C
semantics), dynamic conduit-node path reads as `Option` fields (a missing
path read through a `const` node is a fatal error, modelled as `none`), and
out-of-bounds array reads as `none`.
-/

namespace Ascent

/-- Read a rational array at a C++ `int` index; `none` models a read outside
the array's bounds (an error / undefined behavior in the source). -/
def getQ (xs : List ℚ) (i : ℤ) : Option ℚ :=
  if i < 0 then none else xs[i.toNat]?

/-- Read an integer array at a C++ `int` index; `none` models a read outside
the array's bounds. -/
def getZ (xs : List ℤ) (i : ℤ) : Option ℤ :=
  if i < 0 then none else xs[i.toNat]?

/-! ## Histogram nodes and the distribution operations

A histogram / pdf / cdf conduit node carries a bin-value array together with
`min_val`, `max_val` and `num_bins` (the value array always has `num_bins`
entries: every producer in the source sets `value` from a `num_bins`-sized
buffer, so loops `for(b = 0; b < num_bins; ++b)` over that buffer are loops
over the list). -/

structure Histogram where
  value : List ℚ
  min_val : ℚ
  max_val : ℚ
  num_bins : ℕ
deriving DecidableEq, Repr

/-- Modelled from the spec: the trusted array-math primitive `array_sum`
(from ascent_conduit_reductions, not part of this source file) — given one
array it returns the sum of its entries together with their count. -/
def array_sum (xs : List ℚ) : ℚ × ℕ := (xs.sum, xs.length)

/-- field_pdf (lines 747-774): each bin is divided by the total
`array_sum` of the bins; min/max/num_bins are copied through. -/
def field_pdf (hist : Histogram) : Histogram :=
  let s := (array_sum hist.value).1
  ⟨hist.value.map (fun b => b / s), hist.min_val, hist.max_val, hist.num_bins⟩

/-- The rolling prefix-sum loop of field_cdf: `rolling_cdf += hist_bins[b] / sum;
cdf[b] = rolling_cdf;`. -/
def rollingCdf (s : ℚ) (acc : ℚ) : List ℚ → List ℚ
  | [] => []
  | b :: rest => (acc + b / s) :: rollingCdf s (acc + b / s) rest

/-- field_cdf (lines 776-804): running prefix sum of `hist_bins[b] / sum`;
min/max/num_bins are copied through. -/
def field_cdf (hist : Histogram) : Histogram :=
  let s := (array_sum hist.value).1
  ⟨rollingCdf s 0 hist.value, hist.min_val, hist.max_val, hist.num_bins⟩

/-- field_entropy (lines 722-745): `-Σ p log p` over the bins, where a bin
equal to zero is skipped by the `if(hist_bins[b] != 0)` guard.  The C math
library's `std::log` is an external primitive; it is passed in as a
parameter. -/
def field_entropy (log : ℚ → ℚ) (hist : Histogram) : ℚ :=
  let s := (array_sum hist.value).1
  hist.value.foldl
    (fun entropy b => if b ≠ 0 then entropy + (-(b / s) * log (b / s)) else entropy) 0

/-- The boundary scan of quantile (line 820):
`for(; cdf_bins[bin] < val; ++bin);` — the first index whose cdf entry is
`>= val`; `none` models the unbounded walk past the end of the array that the
C++ loop performs when no entry reaches `val`. -/
def quantile_scan (cdf_bins : List ℚ) (val : ℚ) : Option ℕ :=
  cdf_bins.findIdx? (fun c => decide (val ≤ c))

/-- quantile (lines 807-855).  After the scan the source steps the bin back by
one when it strictly overshot (`if(cdf_bins[bin] > val) --bin;`), possibly to
bin `-1`; `i` and `j` are the selected bin's boundaries.  The `linear` branch
reads `cdf_bins[bin]` and `cdf_bins[bin+1]` again (out of range if `bin` was
stepped to `-1` or is the last bin).  An unrecognized interpolation leaves the
result node unset (`none`). -/
def quantile (cdf : Histogram) (val : ℚ) (interpolation : String) : Option ℚ := do
  let cdf_bins := cdf.value
  let bin0 ← quantile_scan cdf_bins val
  let c0 ← getQ cdf_bins bin0
  let bin : ℤ := if val < c0 then (bin0 : ℤ) - 1 else (bin0 : ℤ)
  let i : ℚ := cdf.min_val + bin * (cdf.max_val - cdf.min_val) / cdf.num_bins
  let j : ℚ := cdf.min_val + (bin + 1) * (cdf.max_val - cdf.min_val) / cdf.num_bins
  if interpolation == "linear" then do
    let cb ← getQ cdf_bins bin
    let cb1 ← getQ cdf_bins (bin + 1)
    if cb1 - cb = 0 then pure i
    else pure (i + (j - i) * (val - cb) / (cb1 - cb))
  else if interpolation == "lower" then pure i
  else if interpolation == "higher" then pure j
  else if interpolation == "midpoint" then pure ((i + j) / 2)
  else if interpolation == "nearest" then pure (if val - i < j - val then i else j)
  else none

/-- The spec's reading of quantile's bin selection, stated from the spec's
words for comparison with `quantile` above: the smallest bin index `b` with
`cdf[b] >= val`, and with interpolation "lower" the left boundary
`min_val + b*(max_val-min_val)/num_bins` of that bin. -/
def spec_quantile_lower (cdf : Histogram) (val : ℚ) : Option ℚ :=
  (cdf.value.findIdx? (fun c => decide (val ≤ c))).map
    (fun b => cdf.min_val + b * (cdf.max_val - cdf.min_val) / cdf.num_bins)

/-! ## Mesh data model

Conduit node trees are modelled as flat records whose optional fields are the
paths the source reads; reading a missing path through a `const` node is a
fatal conduit error, modelled as `none`.  float32 and float64 arrays are both
rational arrays here, so the source's duplicated float32/float64 branches
collapse into one. -/

/-- A uniform coordset node: `dims/{i,j,k}`, `origin/{x,y,z}`,
`spacing/{dx,dy,dz}`; `k`, `z` and `dz` may be absent (2D). -/
structure UniformCoordsNode where
  dimsI : ℤ
  dimsJ : ℤ
  dimsK : Option ℤ
  originX : ℚ
  originY : ℚ
  originZ : Option ℚ
  spacingDX : ℚ
  spacingDY : ℚ
  spacingDZ : Option ℚ
deriving DecidableEq, Repr

/-- detail::UniformCoords after populate (lines 112-161): defaults
origin (0,0,0), spacing (1,1,1), dims (_,_,1); 2D iff `dims/k` is absent. -/
structure UniformCoords where
  origin : ℚ × ℚ × ℚ
  spacing : ℚ × ℚ × ℚ
  dims : ℤ × ℤ × ℤ
  is2d : Bool
deriving DecidableEq, Repr

def populateUniform (n : UniformCoordsNode) : UniformCoords :=
  ⟨(n.originX, n.originY, n.originZ.getD 0),
   (n.spacingDX, n.spacingDY, n.spacingDZ.getD 1),
   (n.dimsI, n.dimsJ, n.dimsK.getD 1),
   n.dimsK.isNone⟩

/-- A coordset node.  `uniform` holds the dims/origin/spacing block of a
uniform coordset; `valuesX/valuesY/valuesZ` hold the `values/{x,y,z}` arrays
of rectilinear and explicit coordsets. -/
structure Coordset where
  ctype : String
  uniform : Option UniformCoordsNode
  valuesX : Option (List ℚ)
  valuesY : Option (List ℚ)
  valuesZ : Option (List ℚ)
deriving DecidableEq, Repr

/-- A topology node: its `type`, referenced `coordset`, and the `elements`
block (`shape` and `connectivity` for unstructured, `dims/{i,j,k}` for
structured). -/
structure Topology where
  ttype : String
  coordset : String
  eleShape : Option String
  eleConn : Option (List ℤ)
  eleDimsI : Option ℤ
  eleDimsJ : Option ℤ
  eleDimsK : Option ℤ
deriving DecidableEq, Repr

/-- detail::get_num_indices (lines 163-192); `none` is the fatal
"Unsupported element type" error. -/
def get_num_indices (shape_type : String) : Option ℕ :=
  if shape_type == "tri" then some 3
  else if shape_type == "quad" then some 4
  else if shape_type == "tet" then some 4
  else if shape_type == "hex" then some 8
  else if shape_type == "point" then some 1
  else none

/-- detail::logical_index_2d (lines 194-198).  C++ `int` division and
remainder truncate toward zero: `Int.tdiv`/`Int.tmod`. -/
def logical_index_2d (vert_index : ℤ) (dims : ℤ × ℤ × ℤ) : ℤ × ℤ :=
  (vert_index.tmod dims.1, vert_index.tdiv dims.1)

/-- detail::logical_index_3d (lines 200-205). -/
def logical_index_3d (vert_index : ℤ) (dims : ℤ × ℤ × ℤ) : ℤ × ℤ × ℤ :=
  (vert_index.tmod dims.1,
   (vert_index.tdiv dims.1).tmod dims.2.1,
   vert_index.tdiv (dims.1 * dims.2.1))

/-- detail::get_element_indices (lines 207-277).  Two faithful quirks of the
source: (1) in the unstructured branch `indices.resize(num_indices)` fills the
vector with `num_indices` zeros and the loop then uses `push_back`, so the
zeros stay in front of the connectivity slice; (2) in the structured branch
the 3D check is `has_path("elements/dims/j")` — a path that was already read
unconditionally just above — so the 3D branch is always taken and
`elements/dims/k` is read unconditionally (an error when absent). -/
def get_element_indices (n_topo : Topology) (index : ℤ) : Option (List ℤ) :=
  if n_topo.ttype == "unstructured" then do
    let shape ← n_topo.eleShape
    let num_indices ← get_num_indices shape
    let conn ← n_topo.eleConn
    let slice ← (List.range num_indices).mapM
      (fun i => getZ conn (index * num_indices + i))
    pure (List.replicate num_indices 0 ++ slice)
  else do
    let di ← n_topo.eleDimsI
    let dj ← n_topo.eleDimsJ
    let vd0 := di + 1
    let vd1 := dj + 1
    let dk ← n_topo.eleDimsK
    let vd2 := dk + 1
    let ed : ℤ × ℤ × ℤ := (vd0 - 1, vd1 - 1, vd2 - 1)
    let e := logical_index_3d index ed
    let i0 := (e.2.2 * vd1 + e.2.1) * vd0 + e.1
    let i1 := i0 + 1
    let i2 := i1 + vd1
    let i3 := i2 - 1
    let i4 := i0 + vd0 * vd2
    let i5 := i4 + 1
    let i6 := i5 + vd1
    let i7 := i6 - 1
    pure [i0, i1, i2, i3, i4, i5, i6, i7]

/-- detail::get_uniform_vert (lines 280-305). -/
def get_uniform_vert (n_coords : Coordset) (index : ℤ) : Option (ℚ × ℚ × ℚ) := do
  let node ← n_coords.uniform
  let c := populateUniform node
  let li : ℤ × ℤ × ℤ :=
    if c.is2d then
      let l2 := logical_index_2d index c.dims
      (l2.1, l2.2, 0)
    else logical_index_3d index c.dims
  pure (c.origin.1 + (li.1 : ℚ) * c.spacing.1,
        c.origin.2.1 + (li.2.1 : ℚ) * c.spacing.2.1,
        c.origin.2.2 + (li.2.2 : ℚ) * c.spacing.2.2)

/-- detail::get_explicit_vert (lines 307-339): the `values/{x,y,z}` arrays
indexed directly by the vertex index. -/
def get_explicit_vert (n_coords : Coordset) (index : ℤ) : Option (ℚ × ℚ × ℚ) := do
  let xs ← n_coords.valuesX
  let ys ← n_coords.valuesY
  let zs ← n_coords.valuesZ
  pure (← getQ xs index, ← getQ ys index, ← getQ zs index)

/-- detail::get_rectilinear_vert (lines 341-402). -/
def get_rectilinear_vert (n_coords : Coordset) (index : ℤ) : Option (ℚ × ℚ × ℚ) := do
  let xs ← n_coords.valuesX
  let ys ← n_coords.valuesY
  let dims : ℤ × ℤ × ℤ :=
    ((xs.length : ℤ), (ys.length : ℤ),
     ((n_coords.valuesZ.map (fun zs => zs.length)).getD 0 : ℕ))
  let li : ℤ × ℤ × ℤ :=
    if dims.2.2 = 0 then
      let l2 := logical_index_2d index dims
      (l2.1, l2.2, 0)
    else logical_index_3d index dims
  let x ← getQ xs li.1
  let y ← getQ ys li.2.1
  let z ← if dims.2.2 ≠ 0 then do
      let zs ← n_coords.valuesZ
      getQ zs li.2.2
    else pure 0
  pure (x, y, z)

/-- detail::get_uniform_element (lines 404-434): logical index over the cell
dims (vertex dims minus one), position is the cell centroid (half-spacing
offset per axis). -/
def get_uniform_element (n_coords : Coordset) (index : ℤ) : Option (ℚ × ℚ × ℚ) := do
  let node ← n_coords.uniform
  let c := populateUniform node
  let ed : ℤ × ℤ × ℤ := (c.dims.1 - 1, c.dims.2.1 - 1, c.dims.2.2 - 1)
  let li : ℤ × ℤ × ℤ :=
    if c.is2d then
      let l2 := logical_index_2d index ed
      (l2.1, l2.2, 0)
    else logical_index_3d index ed
  pure (c.origin.1 + (li.1 : ℚ) * c.spacing.1 + c.spacing.1 * (1/2),
        c.origin.2.1 + (li.2.1 : ℚ) * c.spacing.2.1 + c.spacing.2.1 * (1/2),
        c.origin.2.2 + (li.2.2 : ℚ) * c.spacing.2.2 + c.spacing.2.2 * (1/2))

/-- detail::get_rectilinear_element (lines 436-501): centroid is the mean of
the two bounding coordinate entries per axis, over the cell's logical index in
the element dims (point counts minus one). -/
def get_rectilinear_element (n_coords : Coordset) (index : ℤ) : Option (ℚ × ℚ × ℚ) := do
  let xs ← n_coords.valuesX
  let ys ← n_coords.valuesY
  let zlen : ℤ := ((n_coords.valuesZ.map (fun zs => zs.length)).getD 0 : ℕ)
  let ed : ℤ × ℤ × ℤ := ((xs.length : ℤ) - 1, (ys.length : ℤ) - 1, zlen - 1)
  let li : ℤ × ℤ × ℤ :=
    if zlen = 0 then
      let l2 := logical_index_2d index ed
      (l2.1, l2.2, 0)
    else logical_index_3d index ed
  let x0 ← getQ xs li.1
  let x1 ← getQ xs (li.1 + 1)
  let y0 ← getQ ys li.2.1
  let y1 ← getQ ys (li.2.1 + 1)
  let z ← if zlen ≠ 0 then do
      let zs ← n_coords.valuesZ
      let z0 ← getQ zs li.2.2
      let z1 ← getQ zs (li.2.2 + 1)
      pure ((z0 + z1) * (1/2))
    else pure 0
  pure ((x0 + x1) * (1/2), (y0 + y1) * (1/2), z)

/-- detail::get_explicit_element (lines 503-529): sum the explicit vertex
positions of every entry of `get_element_indices` and divide by their
number. -/
def get_explicit_element (n_coords : Coordset) (n_topo : Topology)
    (index : ℤ) : Option (ℚ × ℚ × ℚ) := do
  let conn ← get_element_indices n_topo index
  let num_indices := conn.length
  let sum ← conn.foldlM
    (fun (acc : ℚ × ℚ × ℚ) vi => do
      let v ← get_explicit_vert n_coords vi
      pure (acc.1 + v.1, acc.2.1 + v.2.1, acc.2.2 + v.2.2))
    ((0 : ℚ), (0 : ℚ), (0 : ℚ))
  pure (sum.1 / (num_indices : ℚ), sum.2.1 / (num_indices : ℚ),
        sum.2.2 / (num_indices : ℚ))

/-- The spec's intended unstructured element centroid, stated from the spec's
words for comparison with `get_explicit_element`: average the positions of
exactly the shape-sized connectivity slice starting at `index*vertexCount`. -/
def spec_unstructured_centroid (n_coords : Coordset) (n_topo : Topology)
    (index : ℤ) : Option (ℚ × ℚ × ℚ) := do
  let shape ← n_topo.eleShape
  let num_indices ← get_num_indices shape
  let conn ← n_topo.eleConn
  let slice ← (List.range num_indices).mapM
    (fun i => getZ conn (index * num_indices + i))
  let sum ← slice.foldlM
    (fun (acc : ℚ × ℚ × ℚ) vi => do
      let v ← get_explicit_vert n_coords vi
      pure (acc.1 + v.1, acc.2.1 + v.2.1, acc.2.2 + v.2.2))
    ((0 : ℚ), (0 : ℚ), (0 : ℚ))
  pure (sum.1 / (num_indices : ℚ), sum.2.1 / (num_indices : ℚ),
        sum.2.2 / (num_indices : ℚ))

/-! ## Domains, datasets and location dispatch -/

/-- A field node: `association`, `topology` and the `values` array. -/
structure FieldNode where
  assoc : String
  topology : String
  values : List ℚ
deriving DecidableEq, Repr

/-- One domain: its `state/domain_id` and the named fields, topologies and
coordsets, in iteration order. -/
structure Domain where
  domain_id : Option ℤ
  fields : List (String × FieldNode)
  topologies : List (String × Topology)
  coordsets : List (String × Coordset)
deriving DecidableEq, Repr

def Domain.findField (d : Domain) (name : String) : Option FieldNode :=
  (d.fields.find? (fun p => p.1 == name)).map (fun p => p.2)

def Domain.hasField (d : Domain) (name : String) : Bool :=
  (d.findField name).isSome

def Domain.findTopology (d : Domain) (name : String) : Option Topology :=
  (d.topologies.find? (fun p => p.1 == name)).map (fun p => p.2)

def Domain.findCoordset (d : Domain) (name : String) : Option Coordset :=
  (d.coordsets.find? (fun p => p.1 == name)).map (fun p => p.2)

/-- vert_location (lines 536-575): empty topology name means the first
topology in iteration order; dispatch on the topology type, unknown type is
the fatal "unknown mesh type" error. -/
def vert_location (domain : Domain) (index : ℤ) (topo_name : String) :
    Option (ℚ × ℚ × ℚ) := do
  let topo ← if topo_name == "" then (domain.topologies.head?).map (fun p => p.1)
             else pure topo_name
  let n_topo ← domain.findTopology topo
  let n_coords ← domain.findCoordset n_topo.coordset
  if n_topo.ttype == "uniform" then get_uniform_vert n_coords index
  else if n_topo.ttype == "rectilinear" then get_rectilinear_vert n_coords index
  else if n_topo.ttype == "unstructured" || n_topo.ttype == "structured" then
    get_explicit_vert n_coords index
  else none

/-- element_location (lines 577-616). -/
def element_location (domain : Domain) (index : ℤ) (topo_name : String) :
    Option (ℚ × ℚ × ℚ) := do
  let topo ← if topo_name == "" then (domain.topologies.head?).map (fun p => p.1)
             else pure topo_name
  let n_topo ← domain.findTopology topo
  let n_coords ← domain.findCoordset n_topo.coordset
  if n_topo.ttype == "uniform" then get_uniform_element n_coords index
  else if n_topo.ttype == "rectilinear" then get_rectilinear_element n_coords index
  else if n_topo.ttype == "unstructured" || n_topo.ttype == "structured" then
    get_explicit_element n_coords n_topo index
  else none

/-! ## Field reductions

The MPI branches of the source are compiled out in a single-process build;
the spec requires the global operations to degenerate to their local value on
a single worker, and that single-worker semantics is what is embedded (the
dataset is the worker's list of domains). -/

/-- Modelled from the spec: the trusted primitive `array_histogram`
(ascent_conduit_reductions, not in this source file) — given one array and the
bin parameters it returns a `num_bins`-sized bin-count vector.  It is kept
abstract as a parameter. -/
def ArrayHistogram : Type := List ℚ → ℚ → ℚ → ℕ → List ℚ

/-- The per-bin accumulation loop of field_histogram:
`for(b = 0; b < num_bins; ++b) bins[b] += dom_hist[b];`. -/
def addBins (num_bins : ℕ) (bins dom_hist : List ℚ) : List ℚ :=
  (List.range num_bins).map (fun b => bins.getD b 0 + dom_hist.getD b 0)

/-- field_histogram (lines 671-720): start from `num_bins` zeroed bins, add
each domain's `array_histogram` of the field's values when the domain holds
the field, and return the bins with the caller-supplied min/max/num_bins. -/
def field_histogram (array_histogram : ArrayHistogram) (dataset : List Domain)
    (field : String) (min_val max_val : ℚ) (num_bins : ℕ) : Histogram :=
  let bins := dataset.foldl
    (fun bins dom =>
      match dom.findField field with
      | some f => addBins num_bins bins (array_histogram f.values min_val max_val num_bins)
      | none => bins)
    (List.replicate num_bins 0)
  ⟨bins, min_val, max_val, num_bins⟩

/-- field_sum (lines 982-1025): accumulate `array_sum`'s value and count over
every domain holding the field. -/
def field_sum (dataset : List Domain) (field : String) : ℚ × ℕ :=
  dataset.foldl
    (fun acc dom =>
      match dom.findField field with
      | some f => (acc.1 + (array_sum f.values).1, acc.2 + (array_sum f.values).2)
      | none => acc)
    (0, 0)

/-- field_avg (lines 1027-1038): the field_sum value divided by its count. -/
def field_avg (dataset : List Domain) (field : String) : ℚ :=
  let sum := field_sum dataset field
  sum.1 / (sum.2 : ℚ)

/-- Modelled from the spec: the trusted primitive `array_min` — the minimum
value of one array together with the in-array index where it occurs (`none` on
an empty array). -/
def array_min (xs : List ℚ) : Option (ℚ × ℕ) :=
  match xs.min? with
  | none => none
  | some m => some (m, xs.findIdx (fun v => v == m))

/-- Modelled from the spec: the trusted primitive `array_max` — the maximum
value of one array together with the in-array index where it occurs. -/
def array_max (xs : List ℚ) : Option (ℚ × ℕ) :=
  match xs.max? with
  | none => none
  | some m => some (m, xs.findIdx (fun v => v == m))

/-- The output node of field_min / field_max. -/
structure LocResult where
  rank : ℤ
  domain_id : ℤ
  position : ℚ × ℚ × ℚ
  value : ℚ
deriving DecidableEq, Repr

/-- The domain scan shared by field_min (lines 913-930) and field_max
(lines 1050-1067): track the best value, the child index of its domain, that
domain's `state/domain_id`, and the in-array index.  The C++ initializes the
best value to `DBL_MAX` / `DBL_LOWEST`; the sentinel is modelled as `none`
(every real value beats it).  `better cur cand` decides the strict
`a_min < min_value` / `a_max > max_value` update test. -/
def extremum_scan (better : ℚ → ℚ → Bool)
    (arr : List ℚ → Option (ℚ × ℕ)) (dataset : List Domain) (field : String) :
    Option (Option ℚ × ℤ × ℤ × ℤ) :=
  dataset.enum.foldlM
    (fun (acc : Option ℚ × ℤ × ℤ × ℤ) p => do
      let (i, dom) := p
      match dom.findField field with
      | some f => do
        let r ← arr f.values
        let upd := match acc.1 with
          | none => true
          | some m => better m r.1
        if upd then do
          let did ← dom.domain_id
          pure (some r.1, (i : ℤ), did, (r.2 : ℤ))
        else pure acc
      | none => pure acc)
    (none, -1, -1, -1)

/-- The location step shared by field_min (lines 932-947) and field_max
(lines 1069-1084): the association string is read from the FIRST domain of
the dataset (`dataset.child(0)`), not from the winning domain, and the
winner's location is resolved with it; `dataset.child(domain)` with the
initial `domain = -1` is an out-of-range access (`none`). -/
def extremum_locate (dataset : List Domain) (field : String)
    (scan : Option ℚ × ℤ × ℤ × ℤ) : Option LocResult := do
  let (value?, domain, domain_id, index) := scan
  let first ← dataset.head?
  let ffield ← first.findField field
  let assoc_str := ffield.assoc
  let windom ← if 0 ≤ domain then dataset[domain.toNat]? else none
  let loc ← if assoc_str == "vertex" then vert_location windom index ""
            else if assoc_str == "element" then element_location windom index ""
            else none
  let value ← value?
  pure ⟨0, domain_id, loc, value⟩

/-- field_min (lines 903-980), single-process path. -/
def field_min (dataset : List Domain) (field : String) : Option LocResult := do
  let scan ← extremum_scan (fun m v => decide (v < m)) array_min dataset field
  extremum_locate dataset field scan

/-- field_max (lines 1040-1116), single-process path. -/
def field_max (dataset : List Domain) (field : String) : Option LocResult := do
  let scan ← extremum_scan (fun m v => decide (v > m)) array_max dataset field
  extremum_locate dataset field scan

/-! ## The association vote -/

/-- Modelled from the spec: `global_someone_agrees` (ascent_mpi_utils, not in
this source file) — true iff at least one worker's local boolean is true (OR
across the fleet, a sum-reduction over {0,1}; the identity on a single
worker).  detail::at_least_one (lines 90-110) in this file is the same
primitive.  The fleet is a list of per-worker booleans. -/
def global_someone_agrees (votes : List Bool) : Bool := votes.any id

/-- The local loop of field_assoc (lines 1145-1161): `rank_has` becomes true
once some domain holds the field, `vertex` becomes false once some domain
holding it has association "element". -/
def assoc_local (dataset : List Domain) (field_name : String) : Bool × Bool :=
  dataset.foldl
    (fun acc dom =>
      match dom.findField field_name with
      | some f => (true, acc.2 && !(f.assoc == "element"))
      | none => acc)
    (false, true)

/-- field_assoc (lines 1142-1175) over a fleet of workers (each worker holds
its local list of domains): vote both directions with the someone-agrees
primitive; both votes true is the fatal disagreement error, otherwise return
"vertex" iff the vertex vote won. -/
def field_assoc (workers : List (List Domain)) (field_name : String) :
    Except String String :=
  let vertex_vote := global_someone_agrees (workers.map
    (fun w => (assoc_local w field_name).1 && (assoc_local w field_name).2))
  let element_vote := global_someone_agrees (workers.map
    (fun w => (assoc_local w field_name).1 && !(assoc_local w field_name).2))
  if vertex_vote && element_vote then
    Except.error "There is disagreement about the association of field"
  else
    Except.ok (if vertex_vote then "vertex" else "element")

/-! ## Helper lemmas -/

theorem tmod_roundtrip {a b : ℤ} (ha : 0 ≤ a) (hab : a < b) (c : ℤ) (hc : 0 ≤ c) :
    (a + c * b).tmod b = a := by
  have hb : 0 ≤ b := le_trans ha (le_of_lt hab)
  have hnn : 0 ≤ a + c * b := by positivity
  rw [Int.tmod_eq_emod hnn hb, Int.add_mul_emod_self, Int.emod_eq_of_lt ha hab]

theorem tdiv_roundtrip {a b : ℤ} (ha : 0 ≤ a) (hab : a < b) (c : ℤ) (hc : 0 ≤ c) :
    (a + c * b).tdiv b = c := by
  have hb : 0 ≤ b := le_trans ha (le_of_lt hab)
  have hnn : 0 ≤ a + c * b := by positivity
  have hbne : b ≠ 0 := by omega
  rw [Int.tdiv_eq_ediv hnn hb, Int.add_mul_ediv_right _ _ hbne,
      Int.ediv_eq_zero_of_lt ha hab, zero_add]

/-! ## C9: logical index round trip -/

/-- C9: for every dims with positive x and y extents and every valid logical
index, logical_index_3d applied to the linear index
`i + j*dims.x + k*dims.x*dims.y` recovers exactly (i,j,k), and
logical_index_2d applied to `i + j*dims.x` recovers exactly (i,j). -/
theorem C9_logical_index_roundtrip :
    (∀ dx dy dz i j k : ℤ, 0 < dx → 0 < dy → 0 ≤ i → i < dx → 0 ≤ j → j < dy →
        0 ≤ k → k < dz →
        logical_index_3d (i + j * dx + k * dx * dy) (dx, dy, dz) = (i, j, k)) ∧
    (∀ dx dy dz i j : ℤ, 0 < dx → 0 < dy → 0 ≤ i → i < dx → 0 ≤ j → j < dy →
        logical_index_2d (i + j * dx) (dx, dy, dz) = (i, j)) := by
  constructor
  · intro dx dy dz i j k hdx hdy h0i hi h0j hj h0k hk
    have hjk : (0 : ℤ) ≤ j + k * dy := by positivity
    have hkey : i + j * dx + k * dx * dy = i + (j + k * dy) * dx := by ring
    simp only [logical_index_3d]
    refine Prod.ext ?_ (Prod.ext ?_ ?_)
    · simpa using (hkey ▸ tmod_roundtrip h0i hi (j + k * dy) hjk)
    · have hdiv : (i + j * dx + k * dx * dy).tdiv dx = j + k * dy := by
        rw [hkey]; exact tdiv_roundtrip h0i hi (j + k * dy) hjk
      simpa [hdiv] using tmod_roundtrip h0j hj k h0k
    · have hsmall : i + j * dx < dx * dy := by nlinarith
      have hnn : (0 : ℤ) ≤ i + j * dx := by positivity
      have hkey3 : i + j * dx + k * dx * dy = (i + j * dx) + k * (dx * dy) := by ring
      simpa [hkey3] using tdiv_roundtrip hnn hsmall k h0k
  · intro dx dy dz i j hdx hdy h0i hi h0j hj
    simp only [logical_index_2d]
    exact Prod.ext (tmod_roundtrip h0i hi j h0j) (tdiv_roundtrip h0i hi j h0j)

/-- Witness for C9 at dims (4,5,6) and (i,j,k) = (3,2,1): linear index
3 + 2*4 + 1*20 = 31 and 3 + 2*4 = 11. -/
theorem C9_witness :
    logical_index_3d 31 (4, 5, 6) = (3, 2, 1) ∧
    logical_index_2d 11 (4, 5, 6) = (3, 2) := by
  constructor
  · have h := C9_logical_index_roundtrip.1 4 5 6 3 2 1 (by norm_num) (by norm_num)
      (by norm_num) (by norm_num) (by norm_num) (by norm_num) (by norm_num) (by norm_num)
    norm_num at h
    exact h
  · have h := C9_logical_index_roundtrip.2 4 5 6 3 2 (by norm_num) (by norm_num)
      (by norm_num) (by norm_num) (by norm_num) (by norm_num)
    norm_num at h
    exact h

/-! ## C3: field_sum and field_avg -/

/-- The per-domain value arrays of a field, in dataset order, over exactly the
domains holding the field. -/
def fieldArrays (dataset : List Domain) (field : String) : List (List ℚ) :=
  dataset.filterMap (fun d => (d.findField field).map (fun fl => fl.values))

theorem field_sum_foldl (field : String) (dataset : List Domain) :
    ∀ acc : ℚ × ℕ,
      dataset.foldl
        (fun acc dom =>
          match dom.findField field with
          | some f => (acc.1 + (array_sum f.values).1, acc.2 + (array_sum f.values).2)
          | none => acc)
        acc
      = (acc.1 + ((fieldArrays dataset field).map List.sum).sum,
         acc.2 + ((fieldArrays dataset field).map List.length).sum) := by
  induction dataset with
  | nil => intro acc; simp [fieldArrays]
  | cons d rest ih =>
    intro acc
    cases h : d.findField field with
    | none => simp [fieldArrays, h, ih, List.filterMap_cons]
    | some fl =>
      rw [List.foldl_cons]
      simp only [h]
      rw [ih]
      simp [fieldArrays, List.filterMap_cons, h, array_sum, add_assoc]

/-- The spec scenario's dataset: a single worker with two domains over a
uniform 3×3 coordset (origin (0,0,0), spacing (1,1,1)); field "f" holds
[0..8] vertex-associated on domain 0 and [9] on domain 1. -/
def scenUniCS : Coordset :=
  ⟨"uniform", some ⟨3, 3, none, 0, 0, none, 1, 1, none⟩, none, none, none⟩

def scenUniTopo : Topology := ⟨"uniform", "coords", none, none, none, none, none⟩

def scenDom0 : Domain :=
  ⟨some 0, [("f", ⟨"vertex", "mesh", [0, 1, 2, 3, 4, 5, 6, 7, 8]⟩)],
   [("mesh", scenUniTopo)], [("coords", scenUniCS)]⟩

def scenDom1 : Domain :=
  ⟨some 1, [("f", ⟨"vertex", "mesh", [9]⟩)],
   [("mesh", scenUniTopo)], [("coords", scenUniCS)]⟩

/-- C3: field_sum returns the sum of the named field's values over every
domain holding the field together with the total value count, and field_avg
returns that sum divided by that count (a rational division, meaningful only
when the count is nonzero); on the spec's single-worker two-domain scenario
([0..8] on domain 0, [9] on domain 1) field_sum returns value 45 and count
10 and field_avg returns 9/2 = 4.5. -/
theorem C3_field_sum_avg :
    (∀ (dataset : List Domain) (field : String),
        field_sum dataset field
          = (((fieldArrays dataset field).map List.sum).sum,
             ((fieldArrays dataset field).map List.length).sum)
        ∧ field_avg dataset field
            = (field_sum dataset field).1 / ((field_sum dataset field).2 : ℚ))
    ∧ field_sum [scenDom0, scenDom1] "f" = (45, 10)
    ∧ field_avg [scenDom0, scenDom1] "f" = 9 / 2 := by
  have hgen : ∀ (dataset : List Domain) (field : String),
      field_sum dataset field
        = (((fieldArrays dataset field).map List.sum).sum,
           ((fieldArrays dataset field).map List.length).sum) := by
    intro dataset field
    have h := field_sum_foldl field dataset (0, 0)
    simpa [field_sum] using h
  refine ⟨fun dataset field => ⟨hgen dataset field, rfl⟩, ?_, ?_⟩
  · rw [hgen]
    simp [fieldArrays, scenDom0, scenDom1, Domain.findField]
    norm_num
  · have h := hgen [scenDom0, scenDom1] "f"
    rw [field_avg, h]
    simp [fieldArrays, scenDom0, scenDom1, Domain.findField]
    norm_num

/-! ## C5: pdf and cdf -/

theorem sum_map_div (l : List ℚ) (s : ℚ) :
    (l.map (fun x => x / s)).sum = l.sum / s := by
  induction l with
  | nil => simp
  | cons x rest ih => simp [ih, add_div]

theorem rollingCdf_length (s : ℚ) (l : List ℚ) :
    ∀ acc, (rollingCdf s acc l).length = l.length := by
  induction l with
  | nil => intro acc; simp [rollingCdf]
  | cons x rest ih => intro acc; simp [rollingCdf, ih]

theorem rollingCdf_getD (s : ℚ) (l : List ℚ) :
    ∀ acc b, b < l.length →
      (rollingCdf s acc l).getD b 0
        = acc + ((l.take (b + 1)).map (fun x => x / s)).sum := by
  induction l with
  | nil => intro acc b hb; simp at hb
  | cons x rest ih =>
    intro acc b hb
    cases b with
    | zero => simp [rollingCdf]
    | succ b =>
      have hb2 : b < rest.length := by simpa using hb
      have h := ih (acc + x / s) b hb2
      simp only [rollingCdf, List.getD_cons_succ, List.take_succ_cons, List.map_cons,
        List.sum_cons]
      rw [h]
      ring

theorem rollingCdf_chain (s : ℚ) (hs : 0 < s) (l : List ℚ)
    (hnn : ∀ x ∈ l, 0 ≤ x) :
    ∀ acc, List.Chain (· ≤ ·) acc (rollingCdf s acc l) := by
  induction l with
  | nil => intro acc; simp [rollingCdf]
  | cons x rest ih =>
    intro acc
    have hx : 0 ≤ x := hnn x (by simp)
    have hrest : ∀ y ∈ rest, 0 ≤ y := fun y hy => hnn y (by simp [hy])
    exact List.Chain.cons
      (le_add_of_nonneg_right (div_nonneg hx hs.le))
      (ih hrest (acc + x / s))

theorem rollingCdf_getLast (s : ℚ) (l : List ℚ) (hne : l ≠ []) :
    ∀ acc, (rollingCdf s acc l).getLast? = some (acc + (l.map (fun x => x / s)).sum) := by
  induction l with
  | nil => exact absurd rfl hne
  | cons x rest ih =>
    intro acc
    cases rest with
    | nil => simp [rollingCdf]
    | cons y t =>
      have h := ih (by simp) (acc + x / s)
      simp only [rollingCdf] at h ⊢
      rw [List.getLast?_cons_cons]
      rw [h]
      simp [add_assoc]

/-- C5: for a histogram with nonnegative bins and positive total, the cdf is
the running prefix sum of the pdf (`cdf[b] = Σ_{i ≤ b} bin[i]/total`), it is
non-decreasing, its final bin is exactly 1, and the pdf bins sum to
exactly 1 (rational arithmetic stands in for "within floating-point
error"). -/
theorem C5_cdf_pdf (hist : Histogram) (hnn : ∀ x ∈ hist.value, 0 ≤ x)
    (hpos : 0 < hist.value.sum) :
    (∀ b, b < hist.value.length →
        (field_cdf hist).value.getD b 0
          = ((hist.value.take (b + 1)).map (fun x => x / hist.value.sum)).sum)
    ∧ List.Sorted (· ≤ ·) (field_cdf hist).value
    ∧ (field_cdf hist).value.getLast? = some 1
    ∧ (field_pdf hist).value.sum = 1 := by
  have hne : hist.value ≠ [] := by
    intro h
    rw [h] at hpos
    simp at hpos
  refine ⟨?_, ?_, ?_, ?_⟩
  · intro b hb
    have h := rollingCdf_getD hist.value.sum hist.value 0 b hb
    simpa [field_cdf, array_sum] using h
  · have hchain := rollingCdf_chain hist.value.sum hpos hist.value hnn 0
    have hpair := (List.chain_iff_pairwise).1 hchain
    have := List.Pairwise.of_cons hpair
    simpa [field_cdf, array_sum, List.Sorted] using this
  · have h := rollingCdf_getLast hist.value.sum hist.value hne 0
    rw [sum_map_div, div_self (ne_of_gt hpos)] at h
    simpa [field_cdf, array_sum] using h
  · rw [field_pdf]
    simp only [array_sum]
    rw [sum_map_div, div_self (ne_of_gt hpos)]

/-- A concrete count histogram for the C5 witness. -/
def histC5 : Histogram := ⟨[1, 2, 1], 0, 3, 3⟩

/-- Witness for C5 at the histogram [1,2,1]. -/
theorem C5_witness :
    (∀ x ∈ histC5.value, (0 : ℚ) ≤ x) ∧ 0 < histC5.value.sum
    ∧ (field_cdf histC5).value.getLast? = some 1
    ∧ (field_pdf histC5).value.sum = 1 := by
  have hnn : ∀ x ∈ histC5.value, (0 : ℚ) ≤ x := by
    intro x hx
    simp [histC5] at hx
    rcases hx with h | h | h <;> rw [h] <;> norm_num
  have hpos : 0 < histC5.value.sum := by
    simp [histC5]
    norm_num
  have h := C5_cdf_pdf histC5 hnn hpos
  exact ⟨hnn, hpos, h.2.2.1, h.2.2.2⟩

/-! ## C6: the quantile boundary scan -/

theorem sorted_le_getLast :
    ∀ (l : List ℚ) (hne : l ≠ []), List.Sorted (· ≤ ·) l →
      ∀ x ∈ l, x ≤ l.getLast hne := by
  intro l
  induction l with
  | nil => intro hne; exact absurd rfl hne
  | cons a t ih =>
    intro hne hsort x hx
    cases t with
    | nil =>
      simp at hx
      simp [hx]
    | cons b t2 =>
      rw [List.getLast_cons (by simp)]
      rcases List.mem_cons.1 hx with rfl | hx2
      · exact le_trans
          (List.rel_of_sorted_cons hsort _ (List.getLast_mem (by simp)))
          (le_refl _)
      · exact ih (by simp) (List.Sorted.of_cons hsort) x hx2

/-- C6: the quantile bin scan `for(; cdf_bins[bin] < val; ++bin)` has no bound
tying `bin` to `num_bins`.  When the last cdf entry is `>= val` the scan stops
at some index strictly below the array length, reading no out-of-range bin;
when the cdf is non-decreasing and `val` strictly exceeds the last entry the
scan walks past the end of the array (`none`), and quantile then has no
defined result for any interpolation. -/
theorem C6_quantile_scan_bound (bins : List ℚ) (hne : bins ≠ []) :
    (∀ val, val ≤ bins.getLast hne →
        ∃ b, quantile_scan bins val = some b ∧ b < bins.length)
    ∧ (List.Sorted (· ≤ ·) bins →
        ∀ val, bins.getLast hne < val → quantile_scan bins val = none)
    ∧ (∀ (val mn mx : ℚ) (nb : ℕ) (interp : String),
        quantile_scan bins val = none →
        quantile ⟨bins, mn, mx, nb⟩ val interp = none) := by
  refine ⟨?_, ?_, ?_⟩
  · intro val hval
    cases h : quantile_scan bins val with
    | none =>
      rw [quantile_scan, List.findIdx?_eq_none_iff] at h
      have := h (bins.getLast hne) (List.getLast_mem hne)
      simp at this
      exact absurd hval (not_le.2 this)
    | some b =>
      refine ⟨b, rfl, ?_⟩
      have := List.findIdx?_eq_some_iff_findIdx_eq.1 h
      exact this.1
  · intro hsort val hval
    rw [quantile_scan, List.findIdx?_eq_none_iff]
    intro x hx
    simp only [decide_eq_false_iff_not, not_le]
    exact lt_of_le_of_lt (sorted_le_getLast bins hne hsort x hx) hval
  · intro val mn mx nb interp h
    simp [quantile, h]

/-- Witness for C6 at the cdf bins [1/4, 1]: probe 1/2 is covered (the scan
stops in range), probe 2 exceeds the last entry (the scan runs off the end
and quantile has no result). -/
theorem C6_witness :
    (∃ b, quantile_scan [1/4, 1] (1/2) = some b ∧ b < 2)
    ∧ quantile_scan [1/4, 1] 2 = none
    ∧ quantile ⟨[1/4, 1], 0, 1, 2⟩ 2 "lower" = none := by
  have hne : ([1/4, 1] : List ℚ) ≠ [] := by simp
  have h := C6_quantile_scan_bound ([1/4, 1] : List ℚ) hne
  have hlast : ([1/4, 1] : List ℚ).getLast hne = 1 := rfl
  have hsort : List.Sorted (· ≤ ·) ([1/4, 1] : List ℚ) := by
    simp [List.Sorted]
    norm_num
  have h2 : quantile_scan [1/4, 1] 2 = none := by
    apply h.2.1 hsort 2
    rw [hlast]
    norm_num
  refine ⟨?_, h2, h.2.2 2 0 1 2 "lower" h2⟩
  have h1 := h.1 (1/2) (by rw [hlast]; norm_num)
  simpa using h1

/-! ## C7: entropy -/

theorem sum_filter_nonzero (l : List ℚ) :
    (l.filter (fun b => decide (b ≠ 0))).sum = l.sum := by
  induction l with
  | nil => rfl
  | cons x rest ih =>
    rw [List.filter_cons]
    by_cases hx : x = 0
    · rw [if_neg (by simp [hx]), ih, List.sum_cons, hx, zero_add]
    · rw [if_pos (by simp [hx]), List.sum_cons, List.sum_cons, ih]

theorem entropy_fold_filter (log : ℚ → ℚ) (s : ℚ) (l : List ℚ) :
    ∀ acc,
      (l.filter (fun b => decide (b ≠ 0))).foldl
          (fun entropy b => if b ≠ 0 then entropy + (-(b / s) * log (b / s)) else entropy)
          acc
        = l.foldl
          (fun entropy b => if b ≠ 0 then entropy + (-(b / s) * log (b / s)) else entropy)
          acc := by
  induction l with
  | nil => intro acc; rfl
  | cons x rest ih =>
    intro acc
    rw [List.filter_cons]
    by_cases hx : x = 0
    · rw [if_neg (by simp [hx]), ih, List.foldl_cons, if_neg (not_not_intro hx)]
    · rw [if_pos (by simp [hx]), List.foldl_cons, List.foldl_cons, if_pos hx]
      exact ih _

theorem entropy_fold_zeros (log : ℚ → ℚ) (s : ℚ) :
    ∀ (n : ℕ) (acc : ℚ),
      (List.replicate n (0 : ℚ)).foldl
          (fun entropy b => if b ≠ 0 then entropy + (-(b / s) * log (b / s)) else entropy)
          acc
        = acc := by
  intro n
  induction n with
  | zero => intro acc; rfl
  | succ n ih =>
    intro acc
    rw [List.replicate_succ, List.foldl_cons, if_neg (not_not_intro rfl)]
    exact ih acc

/-- C7: field_entropy computes `-Σ p·log p` with `p = bin/total`, where every
zero bin contributes exactly 0 (removing the zero bins does not change the
result, and in rational arithmetic no NaN can arise); consequently, for any
log primitive with `log 1 = 0`, the entropy of a one-hot histogram (all mass
in a single bin) is exactly 0. -/
theorem C7_entropy (log : ℚ → ℚ) :
    (∀ hist : Histogram,
        field_entropy log
            ⟨hist.value.filter (fun b => decide (b ≠ 0)),
             hist.min_val, hist.max_val, hist.num_bins⟩
          = field_entropy log hist)
    ∧ (log 1 = 0 → ∀ (a c : ℕ) (m : ℚ), m ≠ 0 → ∀ (mn mx : ℚ) (nb : ℕ),
        field_entropy log
            ⟨List.replicate a 0 ++ m :: List.replicate c 0, mn, mx, nb⟩
          = 0) := by
  constructor
  · intro hist
    rw [field_entropy, field_entropy]
    simp only [array_sum]
    rw [sum_filter_nonzero]
    exact entropy_fold_filter log hist.value.sum hist.value _
  · intro hlog a c m hm mn mx nb
    rw [field_entropy]
    simp only [array_sum]
    have hsum : (List.replicate a (0 : ℚ) ++ m :: List.replicate c 0).sum = m := by
      simp
    rw [hsum]
    rw [List.foldl_append]
    rw [entropy_fold_zeros]
    rw [List.foldl_cons]
    rw [if_pos hm]
    rw [entropy_fold_zeros]
    rw [div_self hm, hlog]
    ring

/-- Witness for C7: the constant-zero log primitive satisfies `log 1 = 0`,
and the one-hot histogram [0,0,5,0] has entropy 0. -/
theorem C7_witness :
    (fun _ : ℚ => (0 : ℚ)) 1 = 0 ∧ (5 : ℚ) ≠ 0
    ∧ field_entropy (fun _ => 0) ⟨[0, 0, 5, 0], 0, 4, 4⟩ = 0 := by
  refine ⟨rfl, by norm_num, ?_⟩
  have h := (C7_entropy (fun _ => 0)).2 rfl 2 1 5 (by norm_num) 0 4 4
  simpa [List.replicate] using h

/-! ## C8: field_histogram -/

theorem addBins_getD (nb : ℕ) (bins dh : List ℚ) (b : ℕ) (hb : b < nb) :
    (addBins nb bins dh).getD b 0 = bins.getD b 0 + dh.getD b 0 := by
  simp [addBins, List.getD, List.getElem?_map, List.getElem?_range hb]

theorem addBins_length (nb : ℕ) (bins dh : List ℚ) :
    (addBins nb bins dh).length = nb := by
  simp [addBins]

theorem field_histogram_foldl (ah : ArrayHistogram) (field : String)
    (mn mx : ℚ) (nb : ℕ) (dataset : List Domain) :
    ∀ (bins : List ℚ) (b : ℕ), b < nb →
      (dataset.foldl
          (fun bins dom =>
            match dom.findField field with
            | some f => addBins nb bins (ah f.values mn mx nb)
            | none => bins)
          bins).getD b 0
        = bins.getD b 0
          + ((fieldArrays dataset field).map
              (fun vs => (ah vs mn mx nb).getD b 0)).sum := by
  induction dataset with
  | nil => intro bins b hb; simp [fieldArrays]
  | cons d rest ih =>
    intro bins b hb
    rw [List.foldl_cons]
    cases h : d.findField field with
    | none =>
      simp only [h]
      rw [ih bins b hb]
      simp [fieldArrays, List.filterMap_cons, h]
    | some fl =>
      simp only [h]
      rw [ih (addBins nb bins (ah fl.values mn mx nb)) b hb]
      rw [addBins_getD nb bins _ b hb]
      simp [fieldArrays, List.filterMap_cons, h, add_assoc]

theorem histogram_fold_length (ah : ArrayHistogram) (field : String)
    (mn mx : ℚ) (nb : ℕ) (dataset : List Domain) :
    ∀ bins : List ℚ, bins.length = nb →
      (dataset.foldl
          (fun bins dom =>
            match dom.findField field with
            | some f => addBins nb bins (ah f.values mn mx nb)
            | none => bins)
          bins).length = nb := by
  induction dataset with
  | nil => intro bins hb; simpa using hb
  | cons d rest ih =>
    intro bins hb
    rw [List.foldl_cons]
    cases h : d.findField field with
    | none => simp only [h]; exact ih bins hb
    | some fl => simp only [h]; exact ih _ (addBins_length nb bins _)

/-- C8: field_histogram carries through min_val, max_val and num_bins exactly
as supplied by the caller, its bin array has num_bins entries, and each bin is
the element-wise sum over every domain holding the field of the per-domain
`array_histogram` bins for the same caller-supplied parameters. -/
theorem C8_field_histogram (ah : ArrayHistogram) (dataset : List Domain)
    (field : String) (mn mx : ℚ) (nb : ℕ) :
    (field_histogram ah dataset field mn mx nb).min_val = mn
    ∧ (field_histogram ah dataset field mn mx nb).max_val = mx
    ∧ (field_histogram ah dataset field mn mx nb).num_bins = nb
    ∧ (field_histogram ah dataset field mn mx nb).value.length = nb
    ∧ ∀ b, b < nb →
        (field_histogram ah dataset field mn mx nb).value.getD b 0
          = ((fieldArrays dataset field).map
              (fun vs => (ah vs mn mx nb).getD b 0)).sum := by
  refine ⟨rfl, rfl, rfl, ?_, ?_⟩
  · exact histogram_fold_length ah field mn mx nb dataset _ (by simp)
  · intro b hb
    have h := field_histogram_foldl ah field mn mx nb dataset
      (List.replicate nb 0) b hb
    simpa [field_histogram, List.getD, List.getElem?_replicate, hb] using h

/-- A concrete trusted histogram primitive for the C8 witness: every value
array contributes its sum to each of the `nb` bins. -/
def ahWitness : ArrayHistogram := fun vs _ _ nb => List.replicate nb vs.sum

/-- Witness for C8 on the two-domain scenario dataset: the metadata passes
through and bin 0 is the sum 36 + 9 of the two per-domain contributions. -/
theorem C8_witness :
    (field_histogram ahWitness [scenDom0, scenDom1] "f" 0 10 3).min_val = 0
    ∧ (field_histogram ahWitness [scenDom0, scenDom1] "f" 0 10 3).max_val = 10
    ∧ (field_histogram ahWitness [scenDom0, scenDom1] "f" 0 10 3).num_bins = 3
    ∧ (field_histogram ahWitness [scenDom0, scenDom1] "f" 0 10 3).value.getD 0 0 = 45 := by
  have h := C8_field_histogram ahWitness [scenDom0, scenDom1] "f" 0 10 3
  refine ⟨h.1, h.2.1, h.2.2.1, ?_⟩
  rw [h.2.2.2.2 0 (by norm_num)]
  simp [fieldArrays, scenDom0, scenDom1, Domain.findField, ahWitness]
  norm_num

/-! ## C4: the association vote -/

theorem assoc_local_foldl (fn : String) (dataset : List Domain) :
    ∀ acc : Bool × Bool,
      dataset.foldl
        (fun acc dom =>
          match dom.findField fn with
          | some f => (true, acc.2 && !(f.assoc == "element"))
          | none => acc)
        acc
      = (acc.1 || dataset.any (fun d => d.hasField fn),
         acc.2 && dataset.all (fun d =>
           match d.findField fn with
           | some fl => !(fl.assoc == "element")
           | none => true)) := by
  induction dataset with
  | nil => intro acc; simp
  | cons d rest ih =>
    intro acc
    rw [List.foldl_cons]
    cases h : d.findField fn with
    | none =>
      simp only [h]
      rw [ih acc]
      simp [List.any_cons, List.all_cons, Domain.hasField, h]
    | some fl =>
      simp only [h]
      rw [ih (true, acc.2 && !(fl.assoc == "element"))]
      simp [List.any_cons, List.all_cons, Domain.hasField, h, Bool.and_assoc]

theorem assoc_local_fst (fn : String) (dataset : List Domain) :
    (assoc_local dataset fn).1 = dataset.any (fun d => d.hasField fn) := by
  rw [assoc_local, assoc_local_foldl fn dataset (false, true)]
  simp

theorem assoc_local_snd (fn : String) (dataset : List Domain) :
    (assoc_local dataset fn).2 = dataset.all (fun d =>
      match d.findField fn with
      | some fl => !(fl.assoc == "element")
      | none => true) := by
  rw [assoc_local, assoc_local_foldl fn dataset (false, true)]
  simp

theorem noElem_iff (fn : String) (d : Domain) :
    ((match d.findField fn with
      | some fl => !(fl.assoc == "element")
      | none => true) = true)
      ↔ ∀ fl, d.findField fn = some fl → ¬(fl.assoc = "element") := by
  cases h : d.findField fn <;> simp [h]

theorem hasField_iff (fn : String) (d : Domain) :
    d.hasField fn = true ↔ ∃ fl, d.findField fn = some fl := by
  simp [Domain.hasField, Option.isSome_iff_exists]

/-- The cross-worker vertex vote, stated as a proposition: some worker holds
the field and every domain of that worker holding it is vertex-associated. -/
def vertex_vote_prop (workers : List (List Domain)) (fn : String) : Prop :=
  ∃ w ∈ workers, (∃ d ∈ w, d.hasField fn = true)
    ∧ ∀ d ∈ w, ∀ fl, d.findField fn = some fl → fl.assoc = "vertex"

/-- The cross-worker element vote, stated as a proposition: some worker has a
domain holding the field with element association. -/
def element_vote_prop (workers : List (List Domain)) (fn : String) : Prop :=
  ∃ w ∈ workers, ∃ d ∈ w, ∃ fl, d.findField fn = some fl ∧ fl.assoc = "element"

theorem someone_agrees_map (f : List Domain → Bool) (workers : List (List Domain)) :
    global_someone_agrees (workers.map f) = true ↔ ∃ w ∈ workers, f w = true := by
  rw [global_someone_agrees]
  induction workers with
  | nil => simp
  | cons w rest ih => simp [List.map_cons, List.any_cons, ih]

theorem vertex_vote_eq (workers : List (List Domain)) (fn : String)
    (hwf : ∀ w ∈ workers, ∀ d ∈ w, ∀ fl, d.findField fn = some fl →
        fl.assoc = "vertex" ∨ fl.assoc = "element") :
    (global_someone_agrees (workers.map
        (fun w => (assoc_local w fn).1 && (assoc_local w fn).2)) = true)
      ↔ vertex_vote_prop workers fn := by
  rw [someone_agrees_map]
  constructor
  · rintro ⟨w, hw, hww⟩
    rw [Bool.and_eq_true, assoc_local_fst, assoc_local_snd,
        List.any_eq_true, List.all_eq_true] at hww
    obtain ⟨⟨d, hd, hdf⟩, hall⟩ := hww
    refine ⟨w, hw, ⟨d, hd, hdf⟩, ?_⟩
    intro d2 hd2 fl hfl
    have hne := (noElem_iff fn d2).1 (hall d2 hd2) fl hfl
    rcases hwf w hw d2 hd2 fl hfl with h | h
    · exact h
    · exact absurd h hne
  · rintro ⟨w, hw, ⟨d, hd, hdf⟩, hall⟩
    refine ⟨w, hw, ?_⟩
    rw [Bool.and_eq_true, assoc_local_fst, assoc_local_snd,
        List.any_eq_true, List.all_eq_true]
    refine ⟨⟨d, hd, hdf⟩, ?_⟩
    intro d2 hd2
    rw [noElem_iff]
    intro fl hfl heq
    have := hall d2 hd2 fl hfl
    rw [this] at heq
    exact absurd heq (by decide)

theorem element_vote_eq (workers : List (List Domain)) (fn : String) :
    (global_someone_agrees (workers.map
        (fun w => (assoc_local w fn).1 && !(assoc_local w fn).2)) = true)
      ↔ element_vote_prop workers fn := by
  rw [someone_agrees_map]
  constructor
  · rintro ⟨w, hw, hww⟩
    rw [Bool.and_eq_true, Bool.not_eq_true', assoc_local_snd] at hww
    obtain ⟨-, hnall⟩ := hww
    rw [Bool.eq_false_iff, Ne, List.all_eq_true] at hnall
    rw [Classical.not_forall] at hnall
    obtain ⟨d, hd⟩ := hnall
    rw [Classical.not_imp] at hd
    obtain ⟨hd, hdne⟩ := hd
    rcases h2 : d.findField fn with - | fl
    · rw [noElem_iff] at hdne
      exact absurd (fun fl hfl => absurd hfl (by simp [h2])) hdne
    · refine ⟨w, hw, d, hd, fl, h2, ?_⟩
      by_contra hne
      rw [noElem_iff] at hdne
      exact hdne (fun fl2 hfl2 => by
        rw [h2] at hfl2
        cases hfl2
        exact hne)
  · rintro ⟨w, hw, d, hd, fl, hfl, hel⟩
    refine ⟨w, hw, ?_⟩
    rw [Bool.and_eq_true, Bool.not_eq_true', assoc_local_fst, assoc_local_snd]
    constructor
    · rw [List.any_eq_true]
      exact ⟨d, hd, (hasField_iff fn d).2 ⟨fl, hfl⟩⟩
    · rw [Bool.eq_false_iff, Ne, List.all_eq_true]
      intro hall
      have := (noElem_iff fn d).1 (hall d hd) fl hfl
      exact this hel

/-- C4: field_assoc computes per worker whether every domain holding the
field is vertex-associated, votes both directions with the someone-agrees
primitive, raises the fatal disagreement error exactly when both votes are
simultaneously true, and otherwise returns "vertex" when the vertex vote won
and "element" otherwise; a single-worker fleet never errors (the local vertex
flag cannot vote both ways). -/
theorem C4_field_assoc (workers : List (List Domain)) (field_name : String)
    (hwf : ∀ w ∈ workers, ∀ d ∈ w, ∀ fl, d.findField field_name = some fl →
        fl.assoc = "vertex" ∨ fl.assoc = "element") :
    ((∃ msg, field_assoc workers field_name = Except.error msg)
        ↔ (vertex_vote_prop workers field_name ∧ element_vote_prop workers field_name))
    ∧ (vertex_vote_prop workers field_name → ¬element_vote_prop workers field_name →
        field_assoc workers field_name = Except.ok "vertex")
    ∧ (¬vertex_vote_prop workers field_name →
        field_assoc workers field_name = Except.ok "element")
    ∧ (∀ w : List Domain, ∃ s, field_assoc [w] field_name = Except.ok s) := by
  have hv := vertex_vote_eq workers field_name hwf
  have he := element_vote_eq workers field_name
  set V := global_someone_agrees (workers.map
    (fun w => (assoc_local w field_name).1 && (assoc_local w field_name).2)) with hVdef
  set E := global_someone_agrees (workers.map
    (fun w => (assoc_local w field_name).1 && !(assoc_local w field_name).2)) with hEdef
  have hfa : field_assoc workers field_name
      = if V && E then
          Except.error "There is disagreement about the association of field"
        else Except.ok (if V then "vertex" else "element") := rfl
  refine ⟨?_, ?_, ?_, ?_⟩
  · constructor
    · rintro ⟨msg, hmsg⟩
      rw [hfa] at hmsg
      cases hV : V <;> cases hE : E <;> rw [hV, hE] at hmsg <;> simp at hmsg
      exact ⟨hv.1 hV, he.1 hE⟩
    · rintro ⟨hVp, hEp⟩
      rw [hfa, hv.2 hVp, he.2 hEp]
      exact ⟨_, rfl⟩
  · intro hVp hEp
    have hE : E = false := by
      cases hE : E
      · rfl
      · exact absurd (he.1 hE) hEp
    rw [hfa, hv.2 hVp, hE]
    rfl
  · intro hVp
    have hV : V = false := by
      cases hV : V
      · rfl
      · exact absurd (hv.1 hV) hVp
    rw [hfa, hV]
    rfl
  · intro w
    refine ⟨if (assoc_local w field_name).1 && (assoc_local w field_name).2
            then "vertex" else "element", ?_⟩
    cases h1 : (assoc_local w field_name).1 <;> cases h2 : (assoc_local w field_name).2 <;>
      simp [field_assoc, global_someone_agrees, h1, h2]

/-- The C4 scenario domains: worker A holds field "x" vertex-associated,
worker B holds it element-associated. -/
def domA : Domain := ⟨some 0, [("x", ⟨"vertex", "mesh", [1]⟩)], [], []⟩

def domB : Domain := ⟨some 1, [("x", ⟨"element", "mesh", [2]⟩)], [], []⟩

/-- Witness for C4: on the two-worker scenario fleet the association vote
raises the disagreement error. -/
theorem C4_witness :
    (∃ msg, field_assoc [[domA], [domB]] "x" = Except.error msg) := by
  have hwf : ∀ w ∈ [[domA], [domB]], ∀ d ∈ w, ∀ fl,
      d.findField "x" = some fl → fl.assoc = "vertex" ∨ fl.assoc = "element" := by
    intro w hw d hd fl hfl
    simp [domA, domB] at hw
    rcases hw with rfl | rfl <;> simp at hd <;> subst hd <;>
      simp [Domain.findField, domA, domB] at hfl <;> simp [← hfl]
  have h := (C4_field_assoc [[domA], [domB]] "x" hwf).1
  apply h.2
  constructor
  · refine ⟨[domA], by simp, ⟨domA, by simp, ?_⟩, ?_⟩
    · simp [Domain.hasField, Domain.findField, domA]
    · intro d hd fl hfl
      simp at hd
      subst hd
      simp [Domain.findField, domA] at hfl
      simp [← hfl]
  · refine ⟨[domB], by simp, domB, by simp, ⟨"element", "mesh", [2]⟩, ?_, rfl⟩
    simp [Domain.findField, domB]

/-! ## C1: quantile bin selection -/

theorem getQ_nat (bins : List ℚ) (b : ℕ) (hb : b < bins.length) :
    getQ bins (b : ℤ) = some (bins.getD b 0) := by
  simp [getQ, List.getD, List.getElem?_eq_getElem hb]

theorem quantile_scan_eq_some (bins : List ℚ) (val : ℚ) (b0 : ℕ)
    (hb : b0 < bins.length) (hge : val ≤ bins.getD b0 0)
    (hmin : ∀ i, i < b0 → bins.getD i 0 < val) :
    quantile_scan bins val = some b0 := by
  rw [quantile_scan, List.findIdx?_eq_some_iff_getElem]
  refine ⟨hb, ?_, ?_⟩
  · rw [← List.getD_eq_getElem bins 0 hb]
    simpa using hge
  · intro j hj
    have := hmin j hj
    rw [List.getD_eq_getElem bins 0 (lt_trans hj hb)] at this
    simpa using not_le.2 this

/-- C1 counterexample input: the cdf [1/2, 1] over [0,2] with 2 bins, probed
at 3/10 (covered: 3/10 ≤ 1/2). -/
def cdfC1 : Histogram := ⟨[1/2, 1], 0, 2, 2⟩

/-- C1 counterexample: the claim says quantile selects the smallest bin b
with cdf[b] ≥ val, which for val = 3/10 is bin 0 with left boundary 0; the
source instead steps back past it (`if(cdf_bins[bin] > val) --bin;`) to bin
-1 and returns -1. -/
theorem C1_counterexample :
    spec_quantile_lower cdfC1 (3/10) = some 0
    ∧ quantile cdfC1 (3/10) "lower" = some (-1)
    ∧ quantile cdfC1 (3/10) "lower" ≠ spec_quantile_lower cdfC1 (3/10) := by
  have h1 : spec_quantile_lower cdfC1 (3/10) = some 0 := by
    simp [spec_quantile_lower, cdfC1]
    norm_num
  have h2 : quantile cdfC1 (3/10) "lower" = some (-1) := by
    simp [quantile, quantile_scan, cdfC1, getQ]
    norm_num
  refine ⟨h1, h2, ?_⟩
  rw [h1, h2]
  intro h
  rw [Option.some_inj] at h
  norm_num at h

/-- C1 (amended): quantile first finds the smallest bin index b0 with
cdf[b0] ≥ val, then steps back to b0 - 1 whenever cdf[b0] > val strictly, and
with interpolation "lower" returns the left boundary of the resulting
(possibly -1) bin; consequently quantile(cdf, cdf(b), "lower") returns the
left boundary of bin b for every bin b whose cdf entry strictly exceeds all
earlier entries — in particular for every b when the cdf is strictly
increasing. -/
theorem C1_quantile_lower (cdf : Histogram) :
    (∀ val b0, b0 < cdf.value.length → val ≤ cdf.value.getD b0 0 →
        (∀ i, i < b0 → cdf.value.getD i 0 < val) →
        quantile cdf val "lower"
          = some (cdf.min_val
              + ((if val < cdf.value.getD b0 0 then (b0 : ℤ) - 1 else (b0 : ℤ)) : ℤ)
                * (cdf.max_val - cdf.min_val) / cdf.num_bins))
    ∧ (List.Pairwise (· < ·) cdf.value → ∀ b, b < cdf.value.length →
        quantile cdf (cdf.value.getD b 0) "lower"
          = some (cdf.min_val
              + (b : ℚ) * (cdf.max_val - cdf.min_val) / cdf.num_bins)) := by
  have hpart1 : ∀ val b0, b0 < cdf.value.length → val ≤ cdf.value.getD b0 0 →
      (∀ i, i < b0 → cdf.value.getD i 0 < val) →
      quantile cdf val "lower"
        = some (cdf.min_val
            + ((if val < cdf.value.getD b0 0 then (b0 : ℤ) - 1 else (b0 : ℤ)) : ℤ)
              * (cdf.max_val - cdf.min_val) / cdf.num_bins) := by
    intro val b0 hb hge hmin
    have hscan := quantile_scan_eq_some cdf.value val b0 hb hge hmin
    have hget := getQ_nat cdf.value b0 hb
    rw [quantile, hscan]
    simp only [Option.bind_eq_bind, Option.some_bind, hget]
    norm_num
    intro h
    exact absurd h (by decide)
  refine ⟨hpart1, ?_⟩
  intro hpair b hb
  have hmin : ∀ i, i < b → cdf.value.getD i 0 < cdf.value.getD b 0 := by
    intro i hi
    rw [List.getD_eq_getElem cdf.value 0 (lt_trans hi hb),
        List.getD_eq_getElem cdf.value 0 hb]
    exact List.pairwise_iff_getElem.1 hpair i b (lt_trans hi hb) hb hi
  have h := hpart1 (cdf.value.getD b 0) b hb (le_refl _) hmin
  rw [h, if_neg (lt_irrefl _)]
  norm_num

/-- Witness for C1 (amended) at the strictly increasing cdf [1/2, 1]:
quantile at the stored cdf value of bin 1 with "lower" returns that bin's
left boundary 1. -/
theorem C1_witness :
    List.Pairwise (· < ·) cdfC1.value ∧ 1 < cdfC1.value.length
    ∧ quantile cdfC1 (cdfC1.value.getD 1 0) "lower" = some 1 := by
  have hpair : List.Pairwise (· < ·) cdfC1.value := by
    simp [cdfC1]
    norm_num
  refine ⟨hpair, by simp [cdfC1], ?_⟩
  have h := (C1_quantile_lower cdfC1).2 hpair 1 (by simp [cdfC1])
  rw [h]
  norm_num [cdfC1]

/-! ## C2: element centroid of an unstructured cell -/

/-- C2 failing input: an explicit coordset with vertices (0,0,0), (3,0,0),
(0,3,0). -/
def triCoordsC2 : Coordset :=
  ⟨"explicit", none, some [0, 3, 0], some [0, 0, 3], some [0, 0, 0]⟩

/-- C2 failing input: a single-triangle unstructured topology with
connectivity [0,1,2]. -/
def triTopoC2 : Topology :=
  ⟨"unstructured", "coords", some "tri", some [0, 1, 2], none, none, none⟩

/-- C2 failing input: the domain wrapping the triangle mesh. -/
def triDomC2 : Domain :=
  ⟨some 0, [], [("mesh", triTopoC2)], [("coords", triCoordsC2)]⟩

set_option maxHeartbeats 1000000 in
/-- C2: the source's `indices.resize(num_indices)` followed by `push_back`
leaves `num_indices` zeros in front of the connectivity slice, so the
element centroid of triangle 0 averages six vertices (three spurious copies
of vertex 0 plus the real three) and returns (1/2, 1/2, 0), while the
spec's centroid of exactly the three connectivity vertices is (1, 1, 0). -/
theorem C2_unstructured_centroid_bug :
    get_element_indices triTopoC2 0 = some [0, 0, 0, 0, 1, 2]
    ∧ element_location triDomC2 0 "" = some (1/2, 1/2, 0)
    ∧ spec_unstructured_centroid triCoordsC2 triTopoC2 0 = some (1, 1, 0)
    ∧ element_location triDomC2 0 "" ≠ spec_unstructured_centroid triCoordsC2 triTopoC2 0 := by
  have h0 : get_element_indices triTopoC2 0 = some [0, 0, 0, 0, 1, 2] := by
    simp [get_element_indices, triTopoC2, get_num_indices, getZ, List.range_succ,
          List.mapM, List.mapM.loop]
  have h1 : element_location triDomC2 0 "" = some (1/2, 1/2, 0) := by
    simp [element_location, triDomC2, Domain.findTopology, Domain.findCoordset,
          get_explicit_element, get_element_indices, get_num_indices, getZ,
          List.range_succ, List.mapM, List.mapM.loop, triTopoC2, triCoordsC2,
          get_explicit_vert, getQ, List.foldlM]
    norm_num
  have h2 : spec_unstructured_centroid triCoordsC2 triTopoC2 0 = some (1, 1, 0) := by
    simp [spec_unstructured_centroid, triCoordsC2, triTopoC2, get_num_indices,
          getZ, List.range_succ, List.mapM, List.mapM.loop, get_explicit_vert,
          getQ, List.foldlM]
  refine ⟨h0, h1, h2, ?_⟩
  rw [h1, h2]
  intro h
  rw [Option.some_inj] at h
  have := congrArg Prod.fst h
  norm_num at this

/-! ## C10: field_min / field_max location resolution -/

theorem extremum_locate_some (dataset : List Domain) (field : String)
    (scan : Option ℚ × ℤ × ℤ × ℤ) (r : LocResult)
    (h : extremum_locate dataset field scan = some r) :
    dataset ≠ [] ∧ (∃ first, dataset.head? = some first ∧ first.hasField field = true)
    ∧ ∃ d ∈ dataset, d.hasField field = true := by
  obtain ⟨value?, domain, domain_id, index⟩ := scan
  cases dataset with
  | nil => simp [extremum_locate] at h
  | cons a t =>
    simp only [extremum_locate, List.head?_cons, Option.bind_eq_bind,
      Option.some_bind] at h
    cases hff : a.findField field with
    | none => rw [hff] at h; simp at h
    | some ff =>
      have hhas : a.hasField field = true := by
        rw [Domain.hasField, hff]
        rfl
      exact ⟨by simp, ⟨a, rfl, hhas⟩, ⟨a, by simp, hhas⟩⟩

/-- The C10 probe dataset: domain 0 declares field "f" vertex-associated with
values [5]; domain 1 declares it element-associated with values [1, 9] (the
global min 1 at in-array index 0 and the global max 9 at index 1 both live on
domain 1). -/
def uniCSC10 : Coordset :=
  ⟨"uniform", some ⟨3, 3, none, 0, 0, none, 1, 1, none⟩, none, none, none⟩

def uniTopoC10 : Topology := ⟨"uniform", "coords", none, none, none, none, none⟩

def domC10a : Domain :=
  ⟨some 0, [("f", ⟨"vertex", "mesh", [5]⟩)],
   [("mesh", uniTopoC10)], [("coords", uniCSC10)]⟩

def domC10b : Domain :=
  ⟨some 1, [("f", ⟨"element", "mesh", [1, 9]⟩)],
   [("mesh", uniTopoC10)], [("coords", uniCSC10)]⟩

/-- C10: a successful field_min or field_max requires a non-empty dataset
whose first domain holds the field (hence some domain holds it) — otherwise
the association lookup on `dataset.child(0)` or the `dataset.child(domain)`
access with the initial domain = -1 fails; and the winner's location is
resolved with the association string of the FIRST domain, not the winner's:
on the probe dataset the winner (domain 1) is element-associated, yet both
extremum positions are the winner's vertex locations ((0,0,0) and (1,0,0)),
not its element-centroid locations ((1/2,1/2,1/2) and (3/2,1/2,1/2)). -/
theorem C10_extremum_first_domain_assoc :
    (∀ (dataset : List Domain) (field : String) (r : LocResult),
        field_min dataset field = some r →
        dataset ≠ [] ∧ (∃ first, dataset.head? = some first ∧ first.hasField field = true)
        ∧ ∃ d ∈ dataset, d.hasField field = true)
    ∧ (∀ (dataset : List Domain) (field : String) (r : LocResult),
        field_max dataset field = some r →
        dataset ≠ [] ∧ (∃ first, dataset.head? = some first ∧ first.hasField field = true)
        ∧ ∃ d ∈ dataset, d.hasField field = true)
    ∧ (domC10b.findField "f").map (fun fl => fl.assoc) = some "element"
    ∧ (domC10a.findField "f").map (fun fl => fl.assoc) = some "vertex"
    ∧ field_min [domC10a, domC10b] "f" = some ⟨0, 1, (0, 0, 0), 1⟩
    ∧ field_max [domC10a, domC10b] "f" = some ⟨0, 1, (1, 0, 0), 9⟩
    ∧ vert_location domC10b 0 "" = some (0, 0, 0)
    ∧ element_location domC10b 0 "" = some (1/2, 1/2, 1/2)
    ∧ element_location domC10b 1 "" = some (3/2, 1/2, 1/2) := by
  refine ⟨?_, ?_, ?_, ?_, ?_, ?_, ?_, ?_, ?_⟩
  · intro dataset field r h
    rw [field_min, Option.bind_eq_bind] at h
    cases hscan : extremum_scan (fun m v => decide (v < m)) array_min dataset field with
    | none => rw [hscan] at h; simp at h
    | some s =>
      rw [hscan, Option.some_bind] at h
      exact extremum_locate_some dataset field s r h
  · intro dataset field r h
    rw [field_max, Option.bind_eq_bind] at h
    cases hscan : extremum_scan (fun m v => decide (v > m)) array_max dataset field with
    | none => rw [hscan] at h; simp at h
    | some s =>
      rw [hscan, Option.some_bind] at h
      exact extremum_locate_some dataset field s r h
  · simp [domC10b, Domain.findField]
  · simp [domC10a, Domain.findField]
  · norm_num [field_min, extremum_scan, extremum_locate, domC10a, domC10b,
      Domain.findField, array_min, List.enum, List.foldlM, vert_location,
      Domain.findTopology, Domain.findCoordset, uniTopoC10, uniCSC10,
      get_uniform_vert, populateUniform, logical_index_2d, List.min?, getQ,
      List.findIdx, List.findIdx.go, cond_eq_if, beq_iff_eq]
  · norm_num [field_max, extremum_scan, extremum_locate, domC10a, domC10b,
      Domain.findField, array_max, List.enum, List.foldlM, vert_location,
      Domain.findTopology, Domain.findCoordset, uniTopoC10, uniCSC10,
      get_uniform_vert, populateUniform, logical_index_2d, List.max?, getQ,
      List.findIdx, List.findIdx.go, cond_eq_if, beq_iff_eq]
    constructor <;> decide
  · simp [vert_location, domC10b, Domain.findTopology, Domain.findCoordset,
      uniTopoC10, uniCSC10, get_uniform_vert, populateUniform, logical_index_2d]
  · simp [element_location, domC10b, Domain.findTopology, Domain.findCoordset,
      uniTopoC10, uniCSC10, get_uniform_element, populateUniform, logical_index_2d]
  · simp [element_location, domC10b, Domain.findTopology, Domain.findCoordset,
      uniTopoC10, uniCSC10, get_uniform_element, populateUniform, logical_index_2d]
    refine ⟨?_, by decide⟩
    norm_num [show Int.tmod 1 2 = 1 from by decide]

/-- Witness for C10: the safety part applied at the probe dataset, whose
field_min succeeds. -/
theorem C10_witness :
    [domC10a, domC10b] ≠ []
    ∧ (∃ first, [domC10a, domC10b].head? = some first ∧ first.hasField "f" = true)
    ∧ ∃ d ∈ [domC10a, domC10b], d.hasField "f" = true := by
  exact C10_extremum_first_domain_assoc.1 [domC10a, domC10b] "f"
    ⟨0, 1, (0, 0, 0), 1⟩ C10_extremum_first_domain_assoc.2.2.2.2.1

end Ascent
